import Mathlib

/-!
The file lz4cli.c : numeric argument reader, container reader and decompression driver

A shallow embedding of `programs/lz4cli.c`:

* `readU32FromChar` (lines 269-275): the decimal reader over a C string;
* `readFile` (lines 279-345): the reader of the 8-byte header and of the payload;
* `main` (lines 347-371): the driver that calls `LZ4_decompress_fast` and writes
  the result with `fwrite(output_buffer, 1, strlen(output_buffer), outputFile)`.

Conventions.  `unsigned` and `uint32_t` are natural numbers reduced modulo `2^32`,
`int` is a 32-bit two-complement integer, `size_t` has 64 bits.  `long` values
(file offsets) are integers; file lengths are taken to fit in a `long`.  A byte
(`uint8_t`, `char`) is an element of `Fin 256`, used only through its value.  The C
library and the LZ4 library are the environment: their observable answers are the
fields of `World`.
-/

set_option autoImplicit false

namespace Lz4cli

/-! ## Machine arithmetic -/

/-- Number of values of `unsigned` and of `uint32_t`. -/
def U32_MOD : Nat := 2 ^ 32

/-- Number of values of `size_t`. -/
def SIZE_MOD : Nat := 2 ^ 64

/-- A byte: the type `uint8_t` (and `char` seen as its bit pattern). -/
abbrev Byte := Fin 256

/-- Reduction of a mathematical integer to the range of a 32-bit `int`. -/
def toInt32 (x : Int) : Int := (x + 2 ^ 31) % 2 ^ 32 - 2 ^ 31

/-- The expression `test << k` of `readFile`: `test` is promoted to `int` and the shifted
value is kept in 32 bits, so a byte of 128 or more shifted by 24 is a negative `int`. -/
def shlInt (test : Byte) (k : Nat) : Int := toInt32 ((test.val : Int) * 2 ^ k)

/-- The statement `value += i` for a `uint32_t value` and an `int i`: `i` is converted to
`unsigned` and the sum is taken modulo `2^32`. -/
def addU32 (value : Nat) (i : Int) : Nat := (((value : Int) + i) % (U32_MOD : Int)).toNat

/-- Conversion of a `long` to `size_t`: exact on a non-negative value, modulo `2^64` on a
negative one. -/
def toSizeT (x : Int) : Nat := if 0 ≤ x then x.toNat else (x % (SIZE_MOD : Int)).toNat

/-! ## `readU32FromChar` -/

/-- The loop condition `(**stringPtr >= '0') && (**stringPtr <= '9')`. -/
def isDigitChar (c : Char) : Bool :=
  decide ('0'.toNat ≤ c.toNat) && decide (c.toNat ≤ '9'.toNat)

/-- The `while` loop of `readU32FromChar`, run on the characters from the cursor on
(the terminating NUL is the end of the list): `result *= 10`, then
`result += **stringPtr - '0'`, both in `unsigned` arithmetic, then `(*stringPtr)++`.
Returns the final `result` and the final cursor. -/
def readU32Loop : List Char → Nat → Nat → Nat × Nat
  | [], result, cursor => (result, cursor)
  | c :: cs, result, cursor =>
    if isDigitChar c then
      readU32Loop cs ((result * 10 % U32_MOD + (c.toNat - '0'.toNat)) % U32_MOD) (cursor + 1)
    else
      (result, cursor)

/-- The call `readU32FromChar(&p)` where `p` points at offset `stringPtr` of the C string
`s`: the returned value and the offset `p` is left at.  The string is `const`: the
function has no way to change it. -/
def readU32FromChar (s : List Char) (stringPtr : Nat) : Nat × Nat :=
  readU32Loop (s.drop stringPtr) 0 stringPtr

/-- The maximal leading run of characters `'0'..'9'` of a string. -/
def digitRun (s : List Char) : List Char := s.takeWhile isDigitChar

/-- The number obtained from a run of digits by `value = value*10 + digit`, started at
`start`, over the natural numbers (no wrap-around). -/
def decimalFrom (start : Nat) (run : List Char) : Nat :=
  run.foldl (fun value c => value * 10 + (c.toNat - '0'.toNat)) start

/-- The decimal number denoted by a run of digits. -/
def decimalValue (run : List Char) : Nat := decimalFrom 0 run

/-! ## The environment of `readFile` and `main` -/

/-- The value of `EXIT_FAILURE` in `<stdlib.h>`. -/
def EXIT_FAILURE : Nat := 1

/-- What the C library and the LZ4 library answer during one run of the program. -/
structure World where
  /-- Content of the file at the fixed input path; `none` when `fopen(filename, "rb")`
  returns NULL. -/
  input : Option (List Byte)
  /-- The indeterminate value the uninitialised local `uint8_t test` starts with. -/
  test0 : Byte
  /-- Whether `malloc(n)` in `readFile` returns a non-NULL pointer. -/
  contentAlloc : Nat → Bool
  /-- Whether `malloc(orig_size)` in `main` returns a non-NULL pointer. -/
  outputAlloc : Nat → Bool
  /-- The call `LZ4_decompress_fast(source, dest, originalSize)`, `originalSize` being the
  `int` the primitive receives: its `int` return value (negative on a decoding failure)
  and the content of the destination block at `dest` once it has returned. -/
  decompress : List Byte → Int → Int × List Byte
  /-- The bytes of memory that follow the end of `output_buffer`. -/
  heapAfter : List Byte
  /-- Whether `fopen` of the fixed output path in mode `"w"` returns non-NULL. -/
  outputOpens : Bool

/-- An open stream: the file content and the file position. -/
structure FILE where
  data : List Byte
  pos : Nat

/-- The call `fread(&test, sizeof(uint8_t), 1, file)` whose return value is dropped: one
byte is read into `test` and the position moves on; at end of file nothing is read and
`test` keeps the value it had. -/
def freadByte (file : FILE) (test : Byte) : Byte × FILE :=
  match file.data[file.pos]? with
  | some b => (b, { file with pos := file.pos + 1 })
  | none => (test, file)

/-- Lines 286-299 (and again 303-315) of `readFile`: `value = 0`, then four times
`fread(&test, 1, 1, file); value += test << k` for `k = 0, 8, 16, 24`.  Returns `value`,
the last content of `test` and the stream. -/
def readLE32 (file : FILE) (test : Byte) : Nat × Byte × FILE :=
  let value : Nat := 0
  let r := freadByte file test
  let value := addU32 value (shlInt r.1 0)
  let r := freadByte r.2 r.1
  let value := addU32 value (shlInt r.1 8)
  let r := freadByte r.2 r.1
  let value := addU32 value (shlInt r.1 16)
  let r := freadByte r.2 r.1
  let value := addU32 value (shlInt r.1 24)
  (value, r.1, r.2)

/-- The call `fread(content, 1, n, file)`: the bytes read (at most `n`, fewer at end of
file) and the stream. -/
def fread (file : FILE) (n : Nat) : List Byte × FILE :=
  let bytes := (file.data.drop file.pos).take n
  (bytes, { file with pos := file.pos + bytes.length })

/-- How a call of `readFile` ends: the process exits with a status, or the function
returns the buffer `content` and has stored `*orig_size` and `*comp_size`. -/
inductive ReadResult
  | exit (status : Nat)
  | returned (content : List Byte) (orig_size comp_size : Nat)
  deriving DecidableEq

/-- The buffer returned by `readFile`, if it returns. -/
def ReadResult.content : ReadResult → Option (List Byte)
  | .exit _ => none
  | .returned content _ _ => some content

/-- The value stored in `*orig_size`, if `readFile` returns. -/
def ReadResult.origSize : ReadResult → Option Nat
  | .exit _ => none
  | .returned _ orig_size _ => some orig_size

/-- The value stored in `*comp_size`, if `readFile` returns. -/
def ReadResult.compSize : ReadResult → Option Nat
  | .exit _ => none
  | .returned _ _ comp_size => some comp_size

/-- The function `readFile(filename, &orig_size, &comp_size)`. -/
def readFile (w : World) : ReadResult :=
  match w.input with
  | none => .exit EXIT_FAILURE
  | some data =>
    let file : FILE := { data := data, pos := 0 }
    -- lines 286-301
    let h1 := readLE32 file w.test0
    let comp_size := h1.1
    -- lines 303-317
    let h2 := readLE32 h1.2.2 h1.2.1
    let orig_size := h2.1
    let file := h2.2.2
    -- fseek(file, 0, SEEK_END); long size = ftell(file) - 8; fseek(file, 8, SEEK_SET);
    let size : Int := (file.data.length : Int) - 8
    let file : FILE := { file with pos := 8 }
    -- char* content = malloc(size + 1); if (!content) exit(EXIT_FAILURE);
    if w.contentAlloc (toSizeT (size + 1)) = false then .exit EXIT_FAILURE
    else
      -- size_t bytesRead = fread(content, 1, size, file);
      let r := fread file (toSizeT size)
      -- if (bytesRead != size) exit(EXIT_FAILURE);
      if r.1.length ≠ toSizeT size then .exit EXIT_FAILURE
      -- content[size] = 0; return content;
      else .returned (r.1 ++ [0]) orig_size comp_size

/-- The call `strlen(p)` on the memory from `p` on: the number of bytes before the first
zero byte; `none` when the memory holds no zero byte (the scan leaves it). -/
def strlen : List Byte → Option Nat
  | [] => none
  | b :: rest => if b = 0 then some 0 else (strlen rest).map (· + 1)

/-- How a run of the process ends: it exits with a status, `output` being the bytes
handed to `fwrite` on the output file (`none` when the output file was never opened, so
never created); or its behaviour is undefined (NULL or out-of-bounds access). -/
inductive Outcome
  | exited (status : Nat) (output : Option (List Byte))
  | undefined
  deriving DecidableEq

/-- One run of the program: the calls of `LZ4_decompress_fast` it made, each with its
source buffer and the `int` received as `originalSize`, and how it ended. -/
structure Run where
  calls : List (List Byte × Int)
  outcome : Outcome
  deriving DecidableEq

/-- The function `main`, declared `int main()`: it has no parameter.  The third parameter
of `LZ4_decompress_fast` is an `int`: the `uint32_t orig_size` is converted at the call,
so a value of `2^31` or more arrives as that value minus `2^32`. -/
def main (w : World) : Run :=
  -- const char* fileContent = readFile(filename, &orig_size, &comp_size);
  match readFile w with
  | .exit status => { calls := [], outcome := .exited status none }
  | .returned fileContent orig_size _comp_size =>
    -- char* output_buffer = malloc(orig_size);
    -- LZ4_decompress_fast(fileContent, output_buffer, orig_size);   (result dropped)
    let originalSize : Int := toInt32 (orig_size : Int)
    let calls := [(fileContent, originalSize)]
    if w.outputAlloc orig_size = false then { calls := calls, outcome := .undefined }
    else
      let output_buffer := (w.decompress fileContent originalSize).2
      -- FILE* outputFile = fopen(..., "w"); if (!outputFile) return 1;
      if w.outputOpens = false then { calls := calls, outcome := .exited 1 none }
      else
        -- fwrite(output_buffer, sizeof(char), strlen(output_buffer), outputFile); return 0;
        match strlen (output_buffer ++ w.heapAfter) with
        | none => { calls := calls, outcome := .undefined }
        | some n =>
          { calls := calls, outcome := .exited 0 (some ((output_buffer ++ w.heapAfter).take n)) }

/-- The bytes of the text `hello world`. -/
def helloWorld : List Byte := [104, 101, 108, 108, 111, 32, 119, 111, 114, 108, 100]

/-- A world whose calls all succeed: the input file is `data`, the primitive returns `ret`
and leaves `dst` in the destination, and `after` follows the destination in memory. -/
def worldOf (data : List Byte) (ret : Int) (dst after : List Byte) : World where
  input := some data
  test0 := 0
  contentAlloc := fun _ => true
  outputAlloc := fun _ => true
  decompress := fun _ _ => (ret, dst)
  heapAfter := after
  outputOpens := true

/-! ## Lemmas on `readU32FromChar` -/

theorem decimalFrom_mod (run : List Char) : ∀ x y : Nat, x % U32_MOD = y % U32_MOD →
    decimalFrom x run % U32_MOD = decimalFrom y run % U32_MOD := by
  induction run with
  | nil => intro x y h; simpa [decimalFrom] using h
  | cons c cs ih =>
    intro x y h
    simp only [decimalFrom, List.foldl_cons]
    apply ih
    exact Nat.ModEq.add_right _ (Nat.ModEq.mul_right 10 h)

theorem readU32Loop_eq (cs : List Char) : ∀ result cursor : Nat, result < U32_MOD →
    readU32Loop cs result cursor =
      (decimalFrom result (digitRun cs) % U32_MOD, cursor + (digitRun cs).length) := by
  induction cs with
  | nil => intro r c hr; simp [readU32Loop, digitRun, decimalFrom, Nat.mod_eq_of_lt hr]
  | cons c cs ih =>
    intro r k hr
    by_cases hd : isDigitChar c = true
    · have hlt : (r * 10 % U32_MOD + (c.toNat - '0'.toNat)) % U32_MOD < U32_MOD :=
        Nat.mod_lt _ (by decide)
      rw [readU32Loop, if_pos hd, ih _ _ hlt]
      have hrun : digitRun (c :: cs) = c :: digitRun cs := by
        simp [digitRun, List.takeWhile_cons, hd]
      rw [hrun]
      simp only [decimalFrom, List.foldl_cons, List.length_cons]
      refine Prod.ext ?_ (by simp; omega)
      simp only
      apply decimalFrom_mod
      simp [Nat.add_mod]
    · have hrun : digitRun (c :: cs) = [] := by
        simp [digitRun, List.takeWhile_cons, hd]
      rw [readU32Loop, if_neg hd, hrun]
      simp [decimalFrom, Nat.mod_eq_of_lt hr]

theorem readU32FromChar_eq (s : List Char) (stringPtr : Nat) :
    readU32FromChar s stringPtr =
      (decimalValue (digitRun (s.drop stringPtr)) % U32_MOD,
        stringPtr + (digitRun (s.drop stringPtr)).length) :=
  readU32Loop_eq _ 0 stringPtr (by decide)

theorem drop_digitRun (t : List Char) :
    t.drop (digitRun t).length = t.dropWhile isDigitChar := by
  induction t with
  | nil => simp [digitRun]
  | cons c cs ih =>
    by_cases hd : isDigitChar c = true
    · simpa [digitRun, List.takeWhile_cons, List.dropWhile_cons, hd] using ih
    · simp [digitRun, List.takeWhile_cons, List.dropWhile_cons, hd]

theorem cursor_suffix (s : List Char) (stringPtr : Nat) :
    s.drop (readU32FromChar s stringPtr).2 = (s.drop stringPtr).dropWhile isDigitChar := by
  rw [readU32FromChar_eq, ← drop_digitRun, List.drop_drop]

theorem head_dropWhile_not_digit (t : List Char) (c : Char)
    (h : (t.dropWhile isDigitChar).head? = some c) : isDigitChar c = false := by
  induction t with
  | nil => simp at h
  | cons a as ih =>
    by_cases hd : isDigitChar a = true
    · rw [List.dropWhile_cons, if_pos hd] at h
      exact ih h
    · rw [List.dropWhile_cons, if_neg hd] at h
      simp only [List.head?_cons, Option.some.injEq] at h
      subst h
      simpa using hd

/-! ## Claims on `readU32FromChar` -/

/-- Claim C5.  When the maximal leading run of digits at the cursor denotes a number
`N < 2^32`, `readU32FromChar` returns `N` (the value built by `value = value*10 + digit`)
and leaves the cursor right after the run: what remains from the cursor on is the string
without its leading digits, its first character (if any) is not a digit, and the
characters around the cursor are those of the unchanged string.  On a string that starts
with a non-digit the value is 0 and the cursor does not move. -/
theorem readU32FromChar_in_range (s : List Char) (stringPtr : Nat)
    (hN : decimalValue (digitRun (s.drop stringPtr)) < 2 ^ 32) :
    readU32FromChar s stringPtr =
        (decimalValue (digitRun (s.drop stringPtr)),
          stringPtr + (digitRun (s.drop stringPtr)).length)
      ∧ s.drop (readU32FromChar s stringPtr).2 = (s.drop stringPtr).dropWhile isDigitChar
      ∧ (∀ c, (s.drop (readU32FromChar s stringPtr).2).head? = some c → isDigitChar c = false)
      ∧ s.take stringPtr ++ digitRun (s.drop stringPtr)
          ++ s.drop (readU32FromChar s stringPtr).2 = s
      ∧ (∀ c rest, s.drop stringPtr = c :: rest → isDigitChar c = false →
          readU32FromChar s stringPtr = (0, stringPtr)) := by
  refine ⟨?_, cursor_suffix s stringPtr, ?_, ?_, ?_⟩
  · rw [readU32FromChar_eq, Nat.mod_eq_of_lt (show _ < U32_MOD from hN)]
  · intro c hc
    rw [cursor_suffix] at hc
    exact head_dropWhile_not_digit _ c hc
  · rw [cursor_suffix, List.append_assoc]
    have h1 : digitRun (s.drop stringPtr) ++ (s.drop stringPtr).dropWhile isDigitChar
        = s.drop stringPtr := List.takeWhile_append_dropWhile _ _
    rw [h1, List.take_append_drop]
  · intro c rest hs hc
    rw [readU32FromChar_eq, hs]
    simp [digitRun, List.takeWhile_cons, hc, decimalValue, decimalFrom]

/-- Witness of C5: on `42abc` the value is 42 and the cursor is at offset 2, where the
character `a` stands. -/
theorem readU32FromChar_in_range_witness :
    readU32FromChar ['4', '2', 'a', 'b', 'c'] 0 = (42, 2)
      ∧ List.drop (readU32FromChar ['4', '2', 'a', 'b', 'c'] 0).2 ['4', '2', 'a', 'b', 'c']
          = ['a', 'b', 'c']
      ∧ readU32FromChar ['x', '7'] 0 = (0, 0) := by
  have h := readU32FromChar_in_range ['4', '2', 'a', 'b', 'c'] 0 (by decide)
  refine ⟨?_, ?_, by decide⟩
  · rw [h.1]; decide
  · rw [h.2.1]; decide

/-- Claim C6.  For every string and cursor, `readU32FromChar` returns `N mod 2^32`, `N`
being the decimal value of the maximal leading run of digits at the cursor, and leaves
the cursor right after that run, at a character that is not a digit (or at the end of
the string).  `4294967296` gives 0 and `4294967297` gives 1, the cursor at offset 10. -/
theorem readU32FromChar_wraps (s : List Char) (stringPtr : Nat) :
    readU32FromChar s stringPtr =
        (decimalValue (digitRun (s.drop stringPtr)) % 2 ^ 32,
          stringPtr + (digitRun (s.drop stringPtr)).length)
      ∧ s.drop (readU32FromChar s stringPtr).2 = (s.drop stringPtr).dropWhile isDigitChar
      ∧ (∀ c, (s.drop (readU32FromChar s stringPtr).2).head? = some c → isDigitChar c = false)
      ∧ readU32FromChar ['4', '2', '9', '4', '9', '6', '7', '2', '9', '6'] 0 = (0, 10)
      ∧ readU32FromChar ['4', '2', '9', '4', '9', '6', '7', '2', '9', '7'] 0 = (1, 10)
      ∧ decimalValue ['4', '2', '9', '4', '9', '6', '7', '2', '9', '7'] = 2 ^ 32 + 1 := by
  refine ⟨readU32FromChar_eq s stringPtr, cursor_suffix s stringPtr, ?_, by decide, by decide,
    by decide⟩
  intro c hc
  rw [cursor_suffix] at hc
  exact head_dropWhile_not_digit _ c hc

/-! ## Lemmas on the header arithmetic -/

theorem addU32_toInt32 (v n : Nat) (h : v + n < 4294967296) :
    addU32 v (toInt32 (n : Int)) = v + n := by
  unfold addU32 toInt32 U32_MOD
  have e : ((2 ^ 32 : Nat) : Int) = 4294967296 := by norm_num
  rw [e]
  have e2 : ((v : Int) + (((n : Int) + 2 ^ 31) % 2 ^ 32 - 2 ^ 31)) % 4294967296
      = ((v + n : Nat) : Int) := by
    norm_num
    omega
  rw [e2]
  exact Int.toNat_ofNat _

theorem addU32_shlInt (v : Nat) (b : Byte) (k : Nat) (h : v + b.val * 2 ^ k < 4294967296) :
    addU32 v (shlInt b k) = v + b.val * 2 ^ k := by
  unfold shlInt
  have e : ((b.val : Int) * 2 ^ k) = ((b.val * 2 ^ k : Nat) : Int) := by push_cast; rfl
  rw [e]
  exact addU32_toInt32 _ _ h

theorem le32_sum (b0 b1 b2 b3 : Byte) :
    addU32 (addU32 (addU32 (addU32 0 (shlInt b0 0)) (shlInt b1 8)) (shlInt b2 16)) (shlInt b3 24)
      = b0.val + 256 * b1.val + 65536 * b2.val + 16777216 * b3.val := by
  have h0 := b0.isLt
  have h1 := b1.isLt
  have h2 := b2.isLt
  have h3 := b3.isLt
  rw [addU32_shlInt 0 b0 0 (by norm_num; omega)]
  rw [addU32_shlInt _ b1 8 (by norm_num; omega)]
  rw [addU32_shlInt _ b2 16 (by norm_num; omega)]
  rw [addU32_shlInt _ b3 24 (by norm_num; omega)]
  norm_num
  omega

theorem le32_or (b0 b1 b2 b3 : Byte) :
    b0.val ||| (b1.val <<< 8) ||| (b2.val <<< 16) ||| (b3.val <<< 24)
      = b0.val + 256 * b1.val + 65536 * b2.val + 16777216 * b3.val := by
  have h0 := b0.isLt
  have h1 := b1.isLt
  have h2 := b2.isLt
  have h3 := b3.isLt
  have e1 : b0.val ||| (b1.val <<< 8) = b0.val + 256 * b1.val := by
    rw [Nat.shiftLeft_eq, Nat.lor_comm, Nat.mul_comm,
      ← Nat.mul_add_lt_is_or (by norm_num) b1.val]
    omega
  have e2 : (b0.val + 256 * b1.val) ||| (b2.val <<< 16)
      = b0.val + 256 * b1.val + 65536 * b2.val := by
    rw [Nat.shiftLeft_eq, Nat.lor_comm, Nat.mul_comm,
      ← Nat.mul_add_lt_is_or (by norm_num; omega) b2.val]
    omega
  have e3 : (b0.val + 256 * b1.val + 65536 * b2.val) ||| (b3.val <<< 24)
      = b0.val + 256 * b1.val + 65536 * b2.val + 16777216 * b3.val := by
    rw [Nat.shiftLeft_eq, Nat.lor_comm, Nat.mul_comm,
      ← Nat.mul_add_lt_is_or (by norm_num; omega) b3.val]
    omega
  rw [e1, e2, e3]

/-! ## Lemmas on `readFile` -/

theorem toSizeT_natCast (n : Nat) : toSizeT (n : Int) = n := by
  simp [toSizeT]

theorem toSizeT_neg_ne_zero (x : Int) (hlo : -8 ≤ x) (hhi : x < 0) : toSizeT x ≠ 0 := by
  unfold toSizeT SIZE_MOD
  rw [if_neg (by omega)]
  have e : ((2 ^ 64 : Nat) : Int) = 18446744073709551616 := by norm_num
  rw [e]
  omega

theorem freadByte_data (file : FILE) (test : Byte) : (freadByte file test).2.data = file.data := by
  unfold freadByte
  split <;> rfl

theorem readLE32_data (file : FILE) (test : Byte) : (readLE32 file test).2.2.data = file.data := by
  simp only [readLE32, freadByte_data]

theorem readLE32_eq (file : FILE) (test b0 b1 b2 b3 : Byte)
    (g0 : file.data[file.pos]? = some b0) (g1 : file.data[file.pos + 1]? = some b1)
    (g2 : file.data[file.pos + 1 + 1]? = some b2)
    (g3 : file.data[file.pos + 1 + 1 + 1]? = some b3) :
    readLE32 file test =
      (b0.val + 256 * b1.val + 65536 * b2.val + 16777216 * b3.val, b3,
        { data := file.data, pos := file.pos + 1 + 1 + 1 + 1 }) := by
  simp only [readLE32, freadByte, g0, g1, g2, g3, le32_sum]

theorem readFile_of_header (w : World) (b0 b1 b2 b3 b4 b5 b6 b7 : Byte) (payload : List Byte)
    (hin : w.input = some (b0 :: b1 :: b2 :: b3 :: b4 :: b5 :: b6 :: b7 :: payload))
    (halloc : w.contentAlloc (payload.length + 1) = true) :
    readFile w = .returned (payload ++ [0])
      (b4.val + 256 * b5.val + 65536 * b6.val + 16777216 * b7.val)
      (b0.val + 256 * b1.val + 65536 * b2.val + 16777216 * b3.val) := by
  have r1 := readLE32_eq ⟨b0 :: b1 :: b2 :: b3 :: b4 :: b5 :: b6 :: b7 :: payload, 0⟩ w.test0
    b0 b1 b2 b3 (by simp) (by simp) (by simp) (by simp)
  have r2 := readLE32_eq
    ⟨b0 :: b1 :: b2 :: b3 :: b4 :: b5 :: b6 :: b7 :: payload, 0 + 1 + 1 + 1 + 1⟩ b3
    b4 b5 b6 b7 (by simp) (by simp) (by simp) (by simp)
  have hs : ((b0 :: b1 :: b2 :: b3 :: b4 :: b5 :: b6 :: b7 :: payload).length : Int) - 8
      = (payload.length : Int) := by
    simp only [List.length_cons]; push_cast; ring
  have hs1 : (payload.length : Int) + 1 = ((payload.length + 1 : Nat) : Int) := by
    push_cast; rfl
  have hd : List.drop 8 (b0 :: b1 :: b2 :: b3 :: b4 :: b5 :: b6 :: b7 :: payload) = payload :=
    rfl
  unfold readFile
  rw [hin]
  simp only [r1, r2]
  rw [hs, hs1, toSizeT_natCast, toSizeT_natCast, halloc]
  simp only [fread, hd]
  simp

theorem exists_header (data : List Byte) (h : 8 ≤ data.length) :
    ∃ b0 b1 b2 b3 b4 b5 b6 b7 payload,
      data = b0 :: b1 :: b2 :: b3 :: b4 :: b5 :: b6 :: b7 :: payload := by
  match data, h with
  | b0 :: b1 :: b2 :: b3 :: b4 :: b5 :: b6 :: b7 :: payload, _ =>
    exact ⟨b0, b1, b2, b3, b4, b5, b6, b7, payload, rfl⟩

theorem readFile_content (w : World) (data : List Byte) (hin : w.input = some data)
    (hlen : 8 ≤ data.length) (halloc : w.contentAlloc (data.length - 8 + 1) = true) :
    (readFile w).content = some (data.drop 8 ++ [0]) := by
  obtain ⟨b0, b1, b2, b3, b4, b5, b6, b7, payload, rfl⟩ := exists_header data hlen
  have ha : w.contentAlloc (payload.length + 1) = true := by
    simpa using halloc
  rw [readFile_of_header w b0 b1 b2 b3 b4 b5 b6 b7 payload hin ha]
  rfl

theorem readFile_short (w : World) (data : List Byte) (hin : w.input = some data)
    (hlen : data.length < 8) : readFile w = .exit EXIT_FAILURE := by
  unfold readFile
  rw [hin]
  simp only [readLE32_data]
  by_cases ha : w.contentAlloc (toSizeT ((data.length : Int) - 8 + 1)) = false
  · rw [if_pos ha]
  · rw [if_neg ha]
    have hd : List.drop 8 data = [] := List.drop_eq_nil_of_le (by omega)
    have hne : toSizeT ((data.length : Int) - 8) ≠ 0 :=
      toSizeT_neg_ne_zero _ (by omega) (by omega)
    simp only [fread, hd, List.take_nil, List.length_nil]
    rw [if_pos (fun h => hne h.symm)]

theorem main_of_exit (w : World) (status : Nat) (h : readFile w = .exit status) :
    main w = { calls := [], outcome := .exited status none } := by
  simp only [main, h]

theorem toInt32_of_lt (n : Nat) (h : n < 2147483648) : toInt32 (n : Int) = n := by
  unfold toInt32
  norm_num
  omega

theorem toInt32_of_ge (n : Nat) (h1 : 2147483648 ≤ n) (h2 : n < 4294967296) :
    toInt32 (n : Int) = (n : Int) - 4294967296 := by
  unfold toInt32
  norm_num
  omega

/-! ## Claims on `readFile` -/

/-- Claim C1.  For a file that starts with the bytes `b0..b7`, `readFile` stores in
`*comp_size` the little-endian 32-bit value of `b0..b3` and in `*orig_size` that of
`b4..b7`: the value the code builds by its four additions of `test << k`, taken modulo
`2^32`, equals `b0 | (b1<<8) | (b2<<16) | (b3<<24)`, which is
`b0 + 256*b1 + 65536*b2 + 16777216*b3`, for all bytes, also when the top byte is 128 or
more and `test << 24` is a negative `int`. -/
theorem readFile_header_little_endian (w : World) (b0 b1 b2 b3 b4 b5 b6 b7 : Byte)
    (payload : List Byte)
    (hin : w.input = some (b0 :: b1 :: b2 :: b3 :: b4 :: b5 :: b6 :: b7 :: payload))
    (halloc : w.contentAlloc (payload.length + 1) = true) :
    (readFile w).compSize
        = some (b0.val ||| (b1.val <<< 8) ||| (b2.val <<< 16) ||| (b3.val <<< 24))
      ∧ (readFile w).origSize
        = some (b4.val ||| (b5.val <<< 8) ||| (b6.val <<< 16) ||| (b7.val <<< 24))
      ∧ addU32 (addU32 (addU32 (addU32 0 (shlInt b0 0)) (shlInt b1 8)) (shlInt b2 16))
          (shlInt b3 24)
        = b0.val ||| (b1.val <<< 8) ||| (b2.val <<< 16) ||| (b3.val <<< 24)
      ∧ b0.val ||| (b1.val <<< 8) ||| (b2.val <<< 16) ||| (b3.val <<< 24)
        = b0.val + 256 * b1.val + 65536 * b2.val + 16777216 * b3.val
      ∧ shlInt 255 24 = -16777216 := by
  refine ⟨?_, ?_, ?_, le32_or b0 b1 b2 b3, by decide⟩
  · rw [readFile_of_header w b0 b1 b2 b3 b4 b5 b6 b7 payload hin halloc, le32_or]
    rfl
  · rw [readFile_of_header w b0 b1 b2 b3 b4 b5 b6 b7 payload hin halloc, le32_or]
    rfl
  · rw [le32_sum, le32_or]

/-- Witness of C1: a header whose two top bytes are 255 and 128. -/
theorem readFile_header_little_endian_witness :
    (readFile (worldOf [1, 2, 3, 255, 5, 6, 7, 128, 9] 0 [] [])).compSize = some 4278387201
      ∧ (readFile (worldOf [1, 2, 3, 255, 5, 6, 7, 128, 9] 0 [] [])).origSize
          = some 2147943941 := by
  have h := readFile_header_little_endian (worldOf [1, 2, 3, 255, 5, 6, 7, 128, 9] 0 [] [])
    1 2 3 255 5 6 7 128 [9] rfl rfl
  refine ⟨?_, ?_⟩
  · rw [h.1]; decide
  · rw [h.2.1]; decide

/-- Claim C10.  For a file of total length `L ≥ 8`, the buffer returned by `readFile`
holds the `L - 8` bytes of the file from offset 8 on, in order and unchanged, followed by
one zero byte at index `L - 8`; it is the same for every content of the 8 header bytes,
so its length does not depend on the compressed-size field. -/
theorem readFile_payload_verbatim (w : World) (data : List Byte)
    (hin : w.input = some data) (hlen : 8 ≤ data.length)
    (halloc : w.contentAlloc (data.length - 8 + 1) = true) :
    (readFile w).content = some (data.drop 8 ++ [0])
      ∧ (data.drop 8 ++ [0]).length = data.length - 8 + 1
      ∧ (∀ i, i < data.length - 8 → (data.drop 8 ++ [0])[i]? = data[8 + i]?)
      ∧ (data.drop 8 ++ [0])[data.length - 8]? = some 0
      ∧ (∀ header : List Byte, header.length = 8 →
          (readFile { w with input := some (header ++ data.drop 8) }).content
            = (readFile w).content) := by
  have hc := readFile_content w data hin hlen halloc
  refine ⟨hc, by simp, ?_, ?_, ?_⟩
  · intro i hi
    rw [List.getElem?_append_left (by simp; omega), List.getElem?_drop]
  · rw [List.getElem?_append_right (by simp)]
    simp
  · intro header hh
    rw [hc]
    have h2 := readFile_content { w with input := some (header ++ data.drop 8) }
      (header ++ data.drop 8) rfl (by simp; omega)
      (by
        have : (header ++ List.drop 8 data).length - 8 + 1 = data.length - 8 + 1 := by
          simp; omega
        rw [this]; exact halloc)
    rw [h2]
    simp [hh]

/-- Witness of C10: an 11-byte file whose header announces 5 payload bytes while 3 follow. -/
theorem readFile_payload_verbatim_witness :
    (readFile (worldOf [5, 0, 0, 0, 11, 0, 0, 0, 7, 0, 9] 0 [] [])).content
      = some [7, 0, 9, 0] := by
  have h := readFile_payload_verbatim (worldOf [5, 0, 0, 0, 11, 0, 0, 0, 7, 0, 9] 0 [] [])
    [5, 0, 0, 0, 11, 0, 0, 0, 7, 0, 9] rfl (by decide) rfl
  rw [h.1]; rfl

/-- Claim C4.  For an input file of fewer than 8 bytes, `readFile` does not return: the
process exits with `EXIT_FAILURE`, so no payload and no size value reach the caller,
`main` makes no call of the decompression primitive, the exit status is not zero and the
output file is never opened. -/
theorem readFile_short_file_fails (w : World) (data : List Byte)
    (hin : w.input = some data) (hlen : data.length < 8) :
    readFile w = .exit EXIT_FAILURE
      ∧ (readFile w).content = none
      ∧ (readFile w).origSize = none
      ∧ (readFile w).compSize = none
      ∧ main w = { calls := [], outcome := .exited EXIT_FAILURE none }
      ∧ EXIT_FAILURE ≠ 0 := by
  have h := readFile_short w data hin hlen
  refine ⟨h, ?_, ?_, ?_, main_of_exit w _ h, by decide⟩ <;> rw [h] <;> rfl

/-- Witness of C4: a file of 4 bytes. -/
theorem readFile_short_file_fails_witness :
    readFile (worldOf [5, 0, 0, 0] 0 helloWorld [0]) = .exit 1
      ∧ main (worldOf [5, 0, 0, 0] 0 helloWorld [0])
          = { calls := [], outcome := .exited 1 none } := by
  have h := readFile_short_file_fails (worldOf [5, 0, 0, 0] 0 helloWorld [0])
    [5, 0, 0, 0] rfl (by decide)
  exact ⟨h.1, h.2.2.2.2.1⟩

/-! ## Lemmas on `main` -/

theorem main_of_returned (w : World) (content : List Byte) (orig comp : Nat)
    (h : readFile w = .returned content orig comp) :
    main w =
      if w.outputAlloc orig = false then
        { calls := [(content, toInt32 (orig : Int))], outcome := .undefined }
      else if w.outputOpens = false then
        { calls := [(content, toInt32 (orig : Int))], outcome := .exited 1 none }
      else
        match strlen ((w.decompress content (toInt32 (orig : Int))).2 ++ w.heapAfter) with
        | none => { calls := [(content, toInt32 (orig : Int))], outcome := .undefined }
        | some n =>
          { calls := [(content, toInt32 (orig : Int))],
            outcome := .exited 0
              (some (((w.decompress content (toInt32 (orig : Int))).2 ++ w.heapAfter).take n)) } := by
  simp only [main, h]

theorem readFile_congr (w v : World) (h1 : v.input = w.input) (h2 : v.test0 = w.test0)
    (h3 : v.contentAlloc = w.contentAlloc) : readFile v = readFile w := by
  unfold readFile
  rw [h1, h2, h3]

theorem main_calls_of_returned (w : World) (content : List Byte) (orig comp : Nat)
    (h : readFile w = .returned content orig comp) :
    (main w).calls = [(content, toInt32 (orig : Int))] := by
  rw [main_of_returned w content orig comp h]
  split
  · rfl
  · split
    · rfl
    · split <;> rfl

theorem main_exited_of_returned (w : World) (content : List Byte) (orig comp : Nat)
    (h : readFile w = .returned content orig comp)
    (hopen : w.outputOpens = true) (status : Nat) (out : Option (List Byte))
    (hrun : (main w).outcome = .exited status out) :
    status = 0 ∧ out.isSome = true := by
  rw [main_of_returned w content orig comp h] at hrun
  split at hrun
  · simp at hrun
  · rw [if_neg (by simp [hopen])] at hrun
    split at hrun
    · simp at hrun
    · simp only [Outcome.exited.injEq] at hrun
      obtain ⟨h1, h2⟩ := hrun
      subst h1 h2
      simp

/-! ## Claims on `main` -/

/-- Claim C2 (the code departs from it).  The container `04 00 00 00 03 00 00 00` followed
by the LZ4 block `30 68 00 69` has original size 3; the destination buffer holds the 3
bytes `68 00 69` (hexadecimal) and `main` writes 1 byte: the length given to `fwrite` is
`strlen(output_buffer)`, not `orig_size`.  On the 11 bytes of `hello world`, which hold
no zero byte, the length is found in the memory after the buffer: 11 bytes are written
when a zero byte follows the buffer, 12 when the byte `!` and then a zero byte follow. -/
theorem main_writes_strlen_bytes :
    (readFile (worldOf [4, 0, 0, 0, 3, 0, 0, 0, 48, 104, 0, 105] 4 [104, 0, 105] [0])).origSize
        = some 3
      ∧ main (worldOf [4, 0, 0, 0, 3, 0, 0, 0, 48, 104, 0, 105] 4 [104, 0, 105] [0])
        = { calls := [([48, 104, 0, 105, 0], 3)], outcome := .exited 0 (some [104]) }
      ∧ main (worldOf [5, 0, 0, 0, 11, 0, 0, 0, 1, 2, 3, 4, 5] 5 helloWorld [0])
        = { calls := [([1, 2, 3, 4, 5, 0], 11)], outcome := .exited 0 (some helloWorld) }
      ∧ main (worldOf [5, 0, 0, 0, 11, 0, 0, 0, 1, 2, 3, 4, 5] 5 helloWorld [33, 0])
        = { calls := [([1, 2, 3, 4, 5, 0], 11)],
            outcome := .exited 0 (some (helloWorld ++ [33])) } := by
  decide

/-- Counterexample to C3: the header announces a compressed size of 5, 3 bytes follow the
header, and `main` calls the primitive on those 3 bytes, writes the output and exits
with status 0. -/
theorem size_mismatch_is_accepted :
    (readFile (worldOf [5, 0, 0, 0, 11, 0, 0, 0, 1, 2, 3] 3 helloWorld [0])).compSize = some 5
      ∧ ([5, 0, 0, 0, 11, 0, 0, 0, 1, 2, 3] : List Byte).length - 8 = 3
      ∧ main (worldOf [5, 0, 0, 0, 11, 0, 0, 0, 1, 2, 3] 3 helloWorld [0])
        = { calls := [([1, 2, 3, 0], 11)], outcome := .exited 0 (some helloWorld) }
      ∧ ¬ ((main (worldOf [5, 0, 0, 0, 11, 0, 0, 0, 1, 2, 3] 3 helloWorld [0])).calls = []
          ∧ ∃ status, status ≠ 0 ∧
            (main (worldOf [5, 0, 0, 0, 11, 0, 0, 0, 1, 2, 3] 3 helloWorld [0])).outcome
              = .exited status none) := by
  refine ⟨by decide, by decide, by decide, ?_⟩
  intro h
  exact absurd h.1 (by decide)

/-- Claim C3, amended.  For a file of at least 8 bytes whose payload allocation succeeds,
whether or not the compressed size of the header equals the number of bytes that follow
the header, `readFile` returns those bytes and `main` calls the decompression primitive
once on them, with the original size of the header converted to `int`: the value itself
when the top byte is below 128, the value minus `2^32` otherwise.  A run that ends with
the output file opened has status 0 and has written the output file.  The run is the
same for every value of the four bytes of the compressed-size field. -/
theorem main_ignores_compressed_size (w : World)
    (b0 b1 b2 b3 b4 b5 b6 b7 : Byte) (payload : List Byte)
    (hin : w.input = some (b0 :: b1 :: b2 :: b3 :: b4 :: b5 :: b6 :: b7 :: payload))
    (halloc : w.contentAlloc (payload.length + 1) = true) :
    (readFile w).content = some (payload ++ [0])
      ∧ (main w).calls
        = [(payload ++ [0],
            toInt32 ((b4.val + 256 * b5.val + 65536 * b6.val + 16777216 * b7.val : Nat) : Int))]
      ∧ (b7.val < 128 →
          toInt32 ((b4.val + 256 * b5.val + 65536 * b6.val + 16777216 * b7.val : Nat) : Int)
            = ((b4.val + 256 * b5.val + 65536 * b6.val + 16777216 * b7.val : Nat) : Int))
      ∧ (128 ≤ b7.val →
          toInt32 ((b4.val + 256 * b5.val + 65536 * b6.val + 16777216 * b7.val : Nat) : Int)
            = ((b4.val + 256 * b5.val + 65536 * b6.val + 16777216 * b7.val : Nat) : Int)
              - 4294967296)
      ∧ (w.outputOpens = true → ∀ status out,
          (main w).outcome = .exited status out → status = 0 ∧ out.isSome = true)
      ∧ (∀ c0 c1 c2 c3 : Byte,
          main { w with input := some (c0 :: c1 :: c2 :: c3 :: b4 :: b5 :: b6 :: b7 :: payload) }
            = main w) := by
  have hr := readFile_of_header w b0 b1 b2 b3 b4 b5 b6 b7 payload hin halloc
  have h4 := b4.isLt
  have h5 := b5.isLt
  have h6 := b6.isLt
  have h7 := b7.isLt
  refine ⟨by rw [hr]; rfl, main_calls_of_returned w _ _ _ hr, ?_, ?_, ?_, ?_⟩
  · intro hlt
    exact toInt32_of_lt _ (by omega)
  · intro hge
    exact toInt32_of_ge _ (by omega) (by omega)
  · intro hopen status out hrun
    exact main_exited_of_returned w _ _ _ hr hopen status out hrun
  · intro c0 c1 c2 c3
    have hr2 := readFile_of_header
      { w with input := some (c0 :: c1 :: c2 :: c3 :: b4 :: b5 :: b6 :: b7 :: payload) }
      c0 c1 c2 c3 b4 b5 b6 b7 payload rfl halloc
    rw [main_of_returned _ _ _ _ hr, main_of_returned _ _ _ _ hr2]

/-- Witness of the amended C3: a compressed-size field of 5 in front of 3 payload bytes,
with an original size of 11, and with an original size of `2^31`, which the primitive
receives as `-2147483648`. -/
theorem main_ignores_compressed_size_witness :
    (main (worldOf [5, 0, 0, 0, 11, 0, 0, 0, 1, 2, 3] 3 helloWorld [0])).calls
        = [([1, 2, 3, 0], 11)]
      ∧ main (worldOf [9, 9, 9, 9, 11, 0, 0, 0, 1, 2, 3] 3 helloWorld [0])
        = main (worldOf [5, 0, 0, 0, 11, 0, 0, 0, 1, 2, 3] 3 helloWorld [0])
      ∧ (main (worldOf [5, 0, 0, 0, 0, 0, 0, 128, 1, 2, 3] 3 helloWorld [0])).calls
        = [([1, 2, 3, 0], -2147483648)] := by
  have h := main_ignores_compressed_size
    (worldOf [5, 0, 0, 0, 11, 0, 0, 0, 1, 2, 3] 3 helloWorld [0])
    5 0 0 0 11 0 0 0 [1, 2, 3] rfl rfl
  have g := main_ignores_compressed_size
    (worldOf [5, 0, 0, 0, 0, 0, 0, 128, 1, 2, 3] 3 helloWorld [0])
    5 0 0 0 0 0 0 128 [1, 2, 3] rfl rfl
  refine ⟨?_, h.2.2.2.2.2 9 9 9 9, ?_⟩
  · rw [h.2.1]; decide
  · rw [g.2.1]; decide

/-- Counterexample to C7: a well-formed container (compressed size 1, one payload byte)
whose original size is 0.  `main` calls the primitive, with destination size 0; and when
the bytes `41 42 00` (hexadecimal) follow the empty destination block in memory, the
output is the 2 bytes `41 42`, not the empty output. -/
theorem zero_size_calls_primitive :
    (readFile (worldOf [1, 0, 0, 0, 0, 0, 0, 0, 0] 1 [] [0])).origSize = some 0
      ∧ (readFile (worldOf [1, 0, 0, 0, 0, 0, 0, 0, 0] 1 [] [0])).compSize = some 1
      ∧ main (worldOf [1, 0, 0, 0, 0, 0, 0, 0, 0] 1 [] [0])
        = { calls := [([0, 0], 0)], outcome := .exited 0 (some []) }
      ∧ ¬ (main (worldOf [1, 0, 0, 0, 0, 0, 0, 0, 0] 1 [] [0])).calls = []
      ∧ main (worldOf [1, 0, 0, 0, 0, 0, 0, 0, 0] 1 [] [65, 66, 0])
        = { calls := [([0, 0], 0)], outcome := .exited 0 (some [65, 66]) } := by
  decide

/-- Claim C7, amended.  For a container whose header has original size 0 and whose
payload allocation succeeds, `readFile` returns and `main` calls the decompression
primitive exactly once, on the payload and with destination size 0: there is no
shortcut for size 0.  A run that then exits with the output file opened exits with
status 0.  What the run writes is not part of the statement. -/
theorem main_zero_original_size (w : World) (b0 b1 b2 b3 : Byte)
    (payload : List Byte)
    (hin : w.input = some (b0 :: b1 :: b2 :: b3 :: 0 :: 0 :: 0 :: 0 :: payload))
    (halloc : w.contentAlloc (payload.length + 1) = true) :
    (readFile w).origSize = some 0
      ∧ (readFile w).content = some (payload ++ [0])
      ∧ (main w).calls = [(payload ++ [0], 0)]
      ∧ (w.outputOpens = true → ∀ status out,
          (main w).outcome = .exited status out → status = 0) := by
  have hr := readFile_of_header w b0 b1 b2 b3 0 0 0 0 payload hin halloc
  have hz : (0 : Byte).val + 256 * (0 : Byte).val + 65536 * (0 : Byte).val
      + 16777216 * (0 : Byte).val = 0 := by decide
  rw [hz] at hr
  refine ⟨by rw [hr]; rfl, by rw [hr]; rfl, ?_, ?_⟩
  · rw [main_calls_of_returned w _ _ _ hr]
    rfl
  · intro hopen status out hrun
    exact (main_exited_of_returned w _ _ _ hr hopen status out hrun).1

/-- Witness of the amended C7: original size 0, one payload byte. -/
theorem main_zero_original_size_witness :
    (main (worldOf [1, 0, 0, 0, 0, 0, 0, 0, 0] 1 [] [65, 66, 0])).calls = [([0, 0], 0)]
      ∧ (readFile (worldOf [1, 0, 0, 0, 0, 0, 0, 0, 0] 1 [] [65, 66, 0])).content
        = some [0, 0] := by
  have h := main_zero_original_size (worldOf [1, 0, 0, 0, 0, 0, 0, 0, 0] 1 [] [65, 66, 0])
    1 0 0 0 [0] rfl rfl
  exact ⟨h.2.2.1, h.2.1⟩

/-- Counterexample to C8: the primitive returns -1, a decoding failure, and leaves the
bytes `41 42 43` (hexadecimal) in the destination; `main` writes them to the output file
and exits with status 0. -/
theorem decode_failure_is_ignored :
    ((worldOf [2, 0, 0, 0, 3, 0, 0, 0, 255, 255] (-1) [65, 66, 67] [0]).decompress
        [255, 255, 0] 3).1 = -1
      ∧ main (worldOf [2, 0, 0, 0, 3, 0, 0, 0, 255, 255] (-1) [65, 66, 67] [0])
        = { calls := [([255, 255, 0], 3)], outcome := .exited 0 (some [65, 66, 67]) }
      ∧ ¬ ∃ status, status ≠ 0 ∧
          (main (worldOf [2, 0, 0, 0, 3, 0, 0, 0, 255, 255] (-1) [65, 66, 67] [0])).outcome
            = .exited status none := by
  refine ⟨by decide, by decide, ?_⟩
  rintro ⟨status, hne, h⟩
  have e : (main (worldOf [2, 0, 0, 0, 3, 0, 0, 0, 255, 255] (-1) [65, 66, 67] [0])).outcome
      = .exited 0 (some [65, 66, 67]) := by decide
  rw [e] at h
  simp at h

/-- Claim C8, amended.  `main` never looks at the value returned by the decompression
primitive: the run (the call made, the bytes written, the exit status) is the same for
every returned value, a decoding failure included, as long as the destination holds the
same bytes. -/
theorem main_discards_primitive_result (w : World) (ret : List Byte → Int → Int) :
    main { w with decompress := fun src n => (ret src n, (w.decompress src n).2) }
      = main w := by
  have hrf : readFile { w with decompress := fun src n => (ret src n, (w.decompress src n).2) }
      = readFile w := readFile_congr _ _ rfl rfl rfl
  cases h : readFile w with
  | exit status =>
    rw [main_of_exit w status h, main_of_exit _ status (hrf.trans h)]
  | returned content orig comp =>
    rw [main_of_returned w content orig comp h,
      main_of_returned _ content orig comp (hrf.trans h)]

end Lz4cli
